import Mathlib

/-!
Verification of the mini-pixel-canvas image-to-commands pipeline
(`src/py/image_to_commands.py`) against its natural-language specification.

The Python source is shallowly embedded below: pure helper functions become
Lean functions, the palette (a Python insertion-ordered dict) becomes an
association list, images become total pixel functions carrying explicit
dimensions, and the Pillow library calls that the script delegates to are
either modelled concretely from their documented behaviour or abstracted
as parameters of the pipeline.
-/

namespace PixelCanvas

/-- An RGBA pixel with 8-bit channels (stored as unbounded naturals;
the pipeline only ever produces values in `[0, 256)`). -/
structure Pixel where
  r : ℕ
  g : ℕ
  b : ℕ
  a : ℕ
  deriving DecidableEq, Repr

/-- A raster image: dimensions plus a total pixel function (reads outside
`[0,w) × [0,h)` are never relied upon by the embedded pipeline). -/
structure Image where
  w : ℕ
  h : ℕ
  pix : ℕ → ℕ → Pixel

/-- An RGB triple, as produced by `_hex_to_rgb`. -/
abbrev RGB := ℕ × ℕ × ℕ

/-- The palette: ordered association list from string keys to RGB, modelling
the insertion-ordered Python dict built by `_load_palette`. -/
abbrev Palette := List (String × RGB)

/-- Squared RGB Euclidean distance, from `_find_closest_color`
(line 121): `(r1 - r2)**2 + (g1 - g2)**2 + (b1 - b2)**2` over Python ints. -/
def distSq (c1 c2 : RGB) : ℤ :=
  ((c1.1 : ℤ) - c2.1) ^ 2 + ((c1.2.1 : ℤ) - c2.2.1) ^ 2 + ((c1.2.2 : ℤ) - c2.2.2) ^ 2

/-- The strict-improvement scan shared by `_find_closest_color` and the
darkest-colour search of `_prepare_dithering_palette`: walk the entries in
order, replacing the current best `(k, d)` only when the score is strictly
smaller. -/
def scanBest {β : Type} [LinearOrder β] (score : String × RGB → β) :
    String → β → Palette → String × β
  | k, d, [] => (k, d)
  | k, d, e :: rest =>
    if score e < d then scanBest score e.1 (score e) rest else scanBest score k d rest

/-- `_find_closest_color` (lines 112-125): best key starts as `"00"` with
infinite best distance (modelled by `Option ℤ`, `none` = `float('inf')`),
then the strict-improvement scan over the palette in declared order. -/
def findClosestColor (rgb : RGB) (pal : Palette) : String :=
  (pal.foldl
    (fun acc e =>
      let d := distSq rgb e.2
      match acc.2 with
      | none => (e.1, some d)
      | some m => if d < m then (e.1, some d) else acc)
    ("00", none)).1

/-- Python/IEEE-754 banker's rounding to integer (`round`): round half to
even.  It is the tie-breaking rule of binary64 arithmetic, and Pillow's
`crop` applies it to float box coordinates. -/
def pyRound (q : ℚ) : ℤ :=
  if q - ⌊q⌋ < 1/2 then ⌊q⌋
  else if 1/2 < q - ⌊q⌋ then ⌊q⌋ + 1
  else if ⌊q⌋ % 2 = 0 then ⌊q⌋ else ⌊q⌋ + 1

/-- Rounding of an exact rational to the nearest IEEE-754 binary64 value
(round to nearest, ties to even), for arguments in the normal range: scale
by the power of two that puts the magnitude in `[2^52, 2^53)`, round half
to even, scale back.  Python's floats are binary64 and every arithmetic
operation and decimal literal is correctly rounded, so composing `fl` with
exact rational operations models Python float arithmetic exactly (no
overflow or subnormal arises in this program's value range). -/
def fl (q : ℚ) : ℚ :=
  if q = 0 then 0
  else (pyRound (q * (2 : ℚ) ^ (52 - Int.log 2 |q|)) : ℚ) * (2 : ℚ) ^ (-(52 - Int.log 2 |q|))

/-- The exact real-number value of the luminance formula
`0.299R + 0.587G + 0.114B`, following the spec's words; the source
computes the formula in binary64 instead (see `luminance`). -/
def luminanceSpec (c : RGB) : ℚ :=
  0.299 * (c.1 : ℚ) + 0.587 * (c.2.1 : ℚ) + 0.114 * (c.2.2 : ℚ)

/-- The binary64 value of the Python literal `0.299`. -/
def c299 : ℚ := fl (299/1000)

/-- The binary64 value of the Python literal `0.587`. -/
def c587 : ℚ := fl (587/1000)

/-- The binary64 value of the Python literal `0.114`. -/
def c114 : ℚ := fl (114/1000)

/-- Luminance as computed by `_prepare_dithering_palette` (line 107):
`0.299*r + 0.587*g + 0.114*b` in Python binary64 floats — each literal,
each product and each (left-associated) sum correctly rounded. -/
def luminance (c : RGB) : ℚ :=
  fl (fl (fl (c299 * (c.1 : ℚ)) + fl (c587 * (c.2.1 : ℚ))) + fl (c114 * (c.2.2 : ℚ)))

/-- The darkest/lightest search of `_prepare_dithering_palette`
(lines 99-110): state is `(darkest_key, lightest_key, min_lum, max_lum)`,
initially `("00", "00", 256, -1)`.  The loop body only ever updates the
darkest key and `min_lum`; the lightest key and `max_lum` are never
touched (faithful to the source, where no `>` comparison exists). -/
def preparePaletteExtremes (pal : Palette) : String × String :=
  let st := pal.foldl
    (fun (st : String × String × ℚ × ℚ) e =>
      let lum := luminance e.2
      if lum < st.2.2.1 then (e.1, st.2.1, lum, st.2.2.2) else st)
    ("00", "00", 256, -1)
  (st.1, st.2.1)

/-- `self.darkest_color_key` after `_prepare_dithering_palette`. -/
def darkestColorKey (pal : Palette) : String := (preparePaletteExtremes pal).1

/-- `self.lightest_color_key` after `_prepare_dithering_palette`. -/
def lightestColorKey (pal : Palette) : String := (preparePaletteExtremes pal).2

/-! ### Characterisation of the strict-improvement scan -/

theorem scanBest_spec {β : Type} [LinearOrder β] (score : String × RGB → β) :
    ∀ (pal : Palette) (k : String) (d : β),
      ((∀ e ∈ pal, d ≤ score e) ∧ scanBest score k d pal = (k, d)) ∨
      (∃ p e s, pal = p ++ e :: s ∧ score e < d ∧
        (∀ x ∈ p, score e < score x) ∧ (∀ x ∈ s, score e ≤ score x) ∧
        scanBest score k d pal = (e.1, score e)) := by
  intro pal
  induction pal with
  | nil =>
    intro k d
    exact Or.inl ⟨by simp, rfl⟩
  | cons a rest ih =>
    intro k d
    by_cases hlt : score a < d
    · rcases ih a.1 (score a) with ⟨hall, heq⟩ | ⟨p, e, s, hsplit, he, hp, hs, heq⟩
      · refine Or.inr ⟨[], a, rest, by simp, hlt, by simp, hall, ?_⟩
        simpa [scanBest, hlt] using heq
      · refine Or.inr ⟨a :: p, e, s, by simp [hsplit], lt_trans he hlt, ?_, hs, ?_⟩
        · intro x hx
          rcases List.mem_cons.mp hx with hx | hx
          · exact hx ▸ he
          · exact hp x hx
        · simpa [scanBest, hlt] using heq
    · rcases ih k d with ⟨hall, heq⟩ | ⟨p, e, s, hsplit, he, hp, hs, heq⟩
      · refine Or.inl ⟨?_, by simpa [scanBest, hlt] using heq⟩
        intro x hx
        rcases List.mem_cons.mp hx with hx | hx
        · exact hx ▸ (not_lt.mp hlt)
        · exact hall x hx
      · refine Or.inr ⟨a :: p, e, s, by simp [hsplit], he, ?_, hs, ?_⟩
        · intro x hx
          rcases List.mem_cons.mp hx with hx | hx
          · exact hx ▸ lt_of_lt_of_le he (not_lt.mp hlt)
          · exact hp x hx
        · simpa [scanBest, hlt] using heq

/-- The fold of `_find_closest_color`, once past the first entry, agrees
with the generic strict-improvement scan (the first entry always beats the
infinite initial distance). -/
theorem findClosestColor_cons (rgb : RGB) (a : String × RGB) (rest : Palette) :
    findClosestColor rgb (a :: rest) =
      (scanBest (fun e => distSq rgb e.2) a.1 (distSq rgb a.2) rest).1 := by
  have key : ∀ (l : Palette) (k : String) (m : ℤ),
      l.foldl
        (fun acc e =>
          let d := distSq rgb e.2
          match acc.2 with
          | none => (e.1, some d)
          | some m' => if d < m' then (e.1, some d) else acc)
        (k, some m) =
      (fun p : String × ℤ => (p.1, some p.2)) (scanBest (fun e => distSq rgb e.2) k m l) := by
    intro l
    induction l with
    | nil => intro k m; rfl
    | cons b bs ih =>
      intro k m
      by_cases hb : distSq rgb b.2 < m
      · simp only [List.foldl_cons, scanBest, hb, if_pos hb]
        exact ih b.1 (distSq rgb b.2)
      · simp only [List.foldl_cons, scanBest, hb, if_neg hb, if_false]
        exact ih k m
  simp only [findClosestColor, List.foldl_cons]
  rw [key rest a.1 (distSq rgb a.2)]

/-- Helper: the earliest strict minimiser of `score`, phrased as a
decomposition `pal = p ++ e :: s` with `e` minimal and strictly below
everything declared before it. -/
theorem findClosestColor_argmin (rgb : RGB) (pal : Palette) (hne : pal ≠ []) :
    ∃ p e s, pal = p ++ e :: s ∧
      findClosestColor rgb pal = e.1 ∧
      (∀ x ∈ pal, distSq rgb e.2 ≤ distSq rgb x.2) ∧
      (∀ x ∈ p, distSq rgb e.2 < distSq rgb x.2) := by
  match pal, hne with
  | a :: rest, _ =>
    rw [findClosestColor_cons]
    rcases scanBest_spec (fun e => distSq rgb e.2) rest a.1 (distSq rgb a.2) with
      ⟨hall, heq⟩ | ⟨p, e, s, hsplit, he, hp, hs, heq⟩
    · refine ⟨[], a, rest, by simp, by rw [heq], ?_, by simp⟩
      intro x hx
      rcases List.mem_cons.mp hx with hx | hx
      · exact hx ▸ le_refl _
      · exact hall x hx
    · refine ⟨a :: p, e, s, by simp [hsplit], by rw [heq], ?_, ?_⟩
      · intro x hx
        rcases List.mem_cons.mp hx with hx | hx
        · exact hx ▸ le_of_lt he
        · rcases List.mem_append.mp (hsplit ▸ hx) with hx | hx
          · exact le_of_lt (hp x hx)
          · rcases List.mem_cons.mp hx with hx | hx
            · exact hx ▸ le_refl _
            · exact hs x hx
      · intro x hx
        rcases List.mem_cons.mp hx with hx | hx
        · exact hx ▸ he
        · exact hp x hx

/-- Helper: the result of `_find_closest_color` on a non-empty palette is
one of the palette's keys. -/
theorem findClosestColor_mem (rgb : RGB) (pal : Palette) (hne : pal ≠ []) :
    findClosestColor rgb pal ∈ pal.map Prod.fst := by
  rcases findClosestColor_argmin rgb pal hne with ⟨p, e, s, hsplit, heq, -, -⟩
  rw [heq, hsplit]
  simp

/-- The darkest/lightest fold, with its inert components split off: the
second and fourth state components are never modified, and the first and
third follow the generic strict-improvement scan on luminance. -/
theorem preparePaletteExtremes_eq (pal : Palette) :
    preparePaletteExtremes pal =
      ((scanBest (fun e => luminance e.2) "00" 256 pal).1, "00") := by
  have key : ∀ (l : Palette) (k lk : String) (m x : ℚ),
      l.foldl
        (fun (st : String × String × ℚ × ℚ) e =>
          let lum := luminance e.2
          if lum < st.2.2.1 then (e.1, st.2.1, lum, st.2.2.2) else st)
        (k, lk, m, x) =
      ((scanBest (fun e => luminance e.2) k m l).1, lk,
        (scanBest (fun e => luminance e.2) k m l).2, x) := by
    intro l
    induction l with
    | nil => intro k lk m x; rfl
    | cons b bs ih =>
      intro k lk m x
      by_cases hb : luminance b.2 < m
      · simp only [List.foldl_cons, scanBest, if_pos hb]
        exact ih b.1 lk (luminance b.2) x
      · simp only [List.foldl_cons, scanBest, if_neg hb]
        exact ih k lk m x
  simp only [preparePaletteExtremes, key]

/-! ### Binary64 rounding: basic facts -/

theorem pyRound_abs_err (q : ℚ) : |(pyRound q : ℚ) - q| ≤ 1/2 := by
  have hf := Int.floor_le q
  have hfl := Int.lt_floor_add_one q
  unfold pyRound
  split_ifs with h1 h2 h3
  · rw [abs_le]
    constructor <;> linarith
  · rw [abs_le]
    push_cast
    constructor <;> linarith
  · rw [abs_le]
    have e1 : 1/2 ≤ q - ⌊q⌋ := not_lt.mp h1
    have e2 : q - ⌊q⌋ ≤ 1/2 := not_lt.mp h2
    constructor <;> linarith
  · rw [abs_le]
    have e1 : 1/2 ≤ q - ⌊q⌋ := not_lt.mp h1
    have e2 : q - ⌊q⌋ ≤ 1/2 := not_lt.mp h2
    push_cast
    constructor <;> linarith

theorem floor_le_pyRound (q : ℚ) : ⌊q⌋ ≤ pyRound q := by
  unfold pyRound
  split_ifs <;> omega

theorem fl_zero : fl 0 = 0 := by
  simp [fl]

theorem fl_nonneg (q : ℚ) (h : 0 ≤ q) : 0 ≤ fl q := by
  rcases eq_or_lt_of_le h with hq | hq
  · rw [← hq, fl_zero]
  · rw [fl, if_neg (ne_of_gt hq)]
    have hx : (0:ℚ) ≤ q * (2:ℚ) ^ (52 - Int.log 2 |q|) :=
      mul_nonneg (le_of_lt hq) (le_of_lt (zpow_pos (by norm_num) _))
    have hfl0 : (0:ℤ) ≤ ⌊q * (2:ℚ) ^ (52 - Int.log 2 |q|)⌋ := Int.floor_nonneg.mpr hx
    have hr0 : (0:ℤ) ≤ pyRound (q * (2:ℚ) ^ (52 - Int.log 2 |q|)) :=
      le_trans hfl0 (floor_le_pyRound _)
    exact mul_nonneg (by exact_mod_cast hr0) (le_of_lt (zpow_pos (by norm_num) _))

/-- Uniqueness of the binade: `2^e ≤ q < 2^(e+1)` pins `Int.log 2 q = e`. -/
theorem int_log_eq {q : ℚ} {e : ℤ} (hq : 0 < q)
    (hlo : (2:ℚ) ^ e ≤ q) (hhi : q < (2:ℚ) ^ (e + 1)) : Int.log 2 q = e := by
  have h2 : ((2:ℕ):ℚ) = (2:ℚ) := by norm_num
  have hle : e ≤ Int.log 2 q := by
    rw [← Int.zpow_le_iff_le_log (by norm_num) hq, h2]
    exact hlo
  have hlt : Int.log 2 q < e + 1 := by
    rw [← Int.lt_zpow_iff_log_lt (by norm_num) hq, h2]
    exact hhi
  omega

/-- The rounding error of `fl` on `[0, 500]` is below `2^-40` (the true
bound is `2^-45`; this crude one suffices). -/
theorem fl_err (q : ℚ) (h0 : 0 ≤ q) (h500 : q ≤ 500) : |fl q - q| ≤ 1/2^40 := by
  rcases eq_or_lt_of_le h0 with hq | hq
  · rw [← hq, fl_zero]
    norm_num
  · have hlog : Int.log 2 q ≤ 8 := by
      calc Int.log 2 q ≤ Int.log 2 (500:ℚ) := Int.log_mono_right hq h500
        _ = 8 := int_log_eq (by norm_num) (by norm_num) (by norm_num)
    rw [fl, if_neg (ne_of_gt hq), abs_of_pos hq]
    have hc : (0:ℚ) < (2:ℚ) ^ (-(52 - Int.log 2 q)) := zpow_pos (by norm_num) _
    have hid : q = q * (2:ℚ) ^ (52 - Int.log 2 q) * (2:ℚ) ^ (-(52 - Int.log 2 q)) := by
      rw [mul_assoc, ← zpow_add₀ (by norm_num : (2:ℚ) ≠ 0)]
      simp
    have key : (pyRound (q * (2:ℚ) ^ (52 - Int.log 2 q)) : ℚ) * (2:ℚ) ^ (-(52 - Int.log 2 q)) - q
        = ((pyRound (q * (2:ℚ) ^ (52 - Int.log 2 q)) : ℚ) - q * (2:ℚ) ^ (52 - Int.log 2 q))
          * (2:ℚ) ^ (-(52 - Int.log 2 q)) := by
      rw [sub_mul, ← hid]
    rw [key, abs_mul, abs_of_pos hc]
    have hcle : (2:ℚ) ^ (-(52 - Int.log 2 q)) ≤ (2:ℚ) ^ (-(44:ℤ)) :=
      zpow_le_zpow_right₀ (by norm_num) (by omega)
    calc |(pyRound (q * (2:ℚ) ^ (52 - Int.log 2 q)) : ℚ) - q * (2:ℚ) ^ (52 - Int.log 2 q)|
          * (2:ℚ) ^ (-(52 - Int.log 2 q))
        ≤ (1/2) * (2:ℚ) ^ (-(52 - Int.log 2 q)) :=
          mul_le_mul_of_nonneg_right (pyRound_abs_err _) (le_of_lt hc)
      _ ≤ (1/2) * (2:ℚ) ^ (-(44:ℤ)) :=
          mul_le_mul_of_nonneg_left hcle (by norm_num)
      _ ≤ 1/2^40 := by norm_num

/-! ### Concrete binary64 evaluation certificates -/

/-- Evaluate `fl` from a binade certificate, fraction-below-half case. -/
theorem fl_eval (q : ℚ) (e n : ℤ) (hq : 0 < q)
    (hlo : (2:ℚ) ^ e ≤ q) (hhi : q < (2:ℚ) ^ (e + 1))
    (hn : (n:ℚ) ≤ q * (2:ℚ) ^ (52 - e)) (hfrac : q * (2:ℚ) ^ (52 - e) - n < 1/2) :
    fl q = (n : ℚ) * (2:ℚ) ^ (e - 52) := by
  have hlog : Int.log 2 q = e := int_log_eq hq hlo hhi
  have hfloor : ⌊q * (2:ℚ) ^ (52 - e)⌋ = n := Int.floor_eq_iff.mpr ⟨hn, by linarith⟩
  have hround : pyRound (q * (2:ℚ) ^ (52 - e)) = n := by
    unfold pyRound
    rw [hfloor, if_pos hfrac]
  rw [fl, if_neg (ne_of_gt hq), abs_of_pos hq, hlog, hround,
    show -(52 - e) = e - 52 by ring]

/-- Evaluate `fl` from a binade certificate, fraction-above-half case. -/
theorem fl_eval_up (q : ℚ) (e n : ℤ) (hq : 0 < q)
    (hlo : (2:ℚ) ^ e ≤ q) (hhi : q < (2:ℚ) ^ (e + 1))
    (hfrac : 1/2 < q * (2:ℚ) ^ (52 - e) - n) (hn1 : q * (2:ℚ) ^ (52 - e) < n + 1) :
    fl q = ((n : ℚ) + 1) * (2:ℚ) ^ (e - 52) := by
  have hlog : Int.log 2 q = e := int_log_eq hq hlo hhi
  have hfloor : ⌊q * (2:ℚ) ^ (52 - e)⌋ = n :=
    Int.floor_eq_iff.mpr ⟨by linarith, by linarith⟩
  have hround : pyRound (q * (2:ℚ) ^ (52 - e)) = n + 1 := by
    unfold pyRound
    rw [hfloor, if_neg (by linarith), if_pos hfrac]
  rw [fl, if_neg (ne_of_gt hq), abs_of_pos hq, hlog, hround,
    show -(52 - e) = e - 52 by ring]
  push_cast
  ring

/-- Evaluate `fl` from a binade certificate, exact-tie case with even
floor (round half to even keeps the floor). -/
theorem fl_eval_tie_even (q : ℚ) (e n : ℤ) (hq : 0 < q)
    (hlo : (2:ℚ) ^ e ≤ q) (hhi : q < (2:ℚ) ^ (e + 1))
    (hfrac : q * (2:ℚ) ^ (52 - e) - n = 1/2) (heven : n % 2 = 0) :
    fl q = (n : ℚ) * (2:ℚ) ^ (e - 52) := by
  have hlog : Int.log 2 q = e := int_log_eq hq hlo hhi
  have hfloor : ⌊q * (2:ℚ) ^ (52 - e)⌋ = n :=
    Int.floor_eq_iff.mpr ⟨by linarith, by linarith⟩
  have hround : pyRound (q * (2:ℚ) ^ (52 - e)) = n := by
    unfold pyRound
    rw [hfloor, if_neg (by linarith), if_neg (by linarith), if_pos heven]
  rw [fl, if_neg (ne_of_gt hq), abs_of_pos hq, hlog, hround,
    show -(52 - e) = e - 52 by ring]

/-! ### The computed luminance is within `2^-29` of the exact formula -/

set_option maxHeartbeats 1600000 in
theorem luminance_approx (c : RGB) (h1 : c.1 ≤ 255) (h2 : c.2.1 ≤ 255)
    (h3 : c.2.2 ≤ 255) :
    |luminance c - luminanceSpec c| ≤ 1/2^29 ∧ 0 ≤ luminance c ∧ luminance c < 256 := by
  have hr0 : (0:ℚ) ≤ (c.1 : ℚ) := Nat.cast_nonneg _
  have hg0 : (0:ℚ) ≤ (c.2.1 : ℚ) := Nat.cast_nonneg _
  have hb0 : (0:ℚ) ≤ (c.2.2 : ℚ) := Nat.cast_nonneg _
  have hr : (c.1 : ℚ) ≤ 255 := by exact_mod_cast h1
  have hg : (c.2.1 : ℚ) ≤ 255 := by exact_mod_cast h2
  have hb : (c.2.2 : ℚ) ≤ 255 := by exact_mod_cast h3
  have hc2 : |c299 - 299/1000| ≤ 1/2^40 := by
    unfold c299
    exact fl_err _ (by norm_num) (by norm_num)
  have hc5 : |c587 - 587/1000| ≤ 1/2^40 := by
    unfold c587
    exact fl_err _ (by norm_num) (by norm_num)
  have hc1 : |c114 - 114/1000| ≤ 1/2^40 := by
    unfold c114
    exact fl_err _ (by norm_num) (by norm_num)
  obtain ⟨hc2a, hc2b⟩ := abs_le.mp hc2
  obtain ⟨hc5a, hc5b⟩ := abs_le.mp hc5
  obtain ⟨hc1a, hc1b⟩ := abs_le.mp hc1
  have hc2pos : (0:ℚ) ≤ c299 := by linarith
  have hc5pos : (0:ℚ) ≤ c587 := by linarith
  have hc1pos : (0:ℚ) ≤ c114 := by linarith
  have hp1 : (0:ℚ) ≤ c299 * (c.1 : ℚ) := mul_nonneg hc2pos hr0
  have hp2 : (0:ℚ) ≤ c587 * (c.2.1 : ℚ) := mul_nonneg hc5pos hg0
  have hp3 : (0:ℚ) ≤ c114 * (c.2.2 : ℚ) := mul_nonneg hc1pos hb0
  have hp1b : c299 * (c.1 : ℚ) ≤ 500 := by
    have := mul_le_mul (by linarith : c299 ≤ 1) hr hr0 (by norm_num : (0:ℚ) ≤ 1)
    linarith
  have hp2b : c587 * (c.2.1 : ℚ) ≤ 500 := by
    have := mul_le_mul (by linarith : c587 ≤ 1) hg hg0 (by norm_num : (0:ℚ) ≤ 1)
    linarith
  have hp3b : c114 * (c.2.2 : ℚ) ≤ 500 := by
    have := mul_le_mul (by linarith : c114 ≤ 1) hb hb0 (by norm_num : (0:ℚ) ≤ 1)
    linarith
  have hm1 := abs_le.mp (fl_err _ hp1 hp1b)
  have hm2 := abs_le.mp (fl_err _ hp2 hp2b)
  have hm3 := abs_le.mp (fl_err _ hp3 hp3b)
  have hs1 : |c299 * (c.1 : ℚ) - (299/1000) * (c.1 : ℚ)| ≤ (1/2^40) * 255 := by
    rw [show c299 * (c.1:ℚ) - (299/1000) * (c.1:ℚ) = (c299 - 299/1000) * (c.1:ℚ) by ring,
      abs_mul, abs_of_nonneg hr0]
    exact mul_le_mul hc2 hr hr0 (by norm_num)
  have hs2 : |c587 * (c.2.1 : ℚ) - (587/1000) * (c.2.1 : ℚ)| ≤ (1/2^40) * 255 := by
    rw [show c587 * (c.2.1:ℚ) - (587/1000) * (c.2.1:ℚ) = (c587 - 587/1000) * (c.2.1:ℚ) by ring,
      abs_mul, abs_of_nonneg hg0]
    exact mul_le_mul hc5 hg hg0 (by norm_num)
  have hs3 : |c114 * (c.2.2 : ℚ) - (114/1000) * (c.2.2 : ℚ)| ≤ (1/2^40) * 255 := by
    rw [show c114 * (c.2.2:ℚ) - (114/1000) * (c.2.2:ℚ) = (c114 - 114/1000) * (c.2.2:ℚ) by ring,
      abs_mul, abs_of_nonneg hb0]
    exact mul_le_mul hc1 hb hb0 (by norm_num)
  obtain ⟨hs1a, hs1b⟩ := abs_le.mp hs1
  obtain ⟨hs2a, hs2b⟩ := abs_le.mp hs2
  obtain ⟨hs3a, hs3b⟩ := abs_le.mp hs3
  have hm1pos : (0:ℚ) ≤ fl (c299 * (c.1 : ℚ)) := fl_nonneg _ hp1
  have hm2pos : (0:ℚ) ≤ fl (c587 * (c.2.1 : ℚ)) := fl_nonneg _ hp2
  have hm3pos : (0:ℚ) ≤ fl (c114 * (c.2.2 : ℚ)) := fl_nonneg _ hp3
  have hm1up : fl (c299 * (c.1 : ℚ)) ≤ 80 := by linarith
  have hm2up : fl (c587 * (c.2.1 : ℚ)) ≤ 152 := by linarith
  have hm3up : fl (c114 * (c.2.2 : ℚ)) ≤ 32 := by linarith
  have ha1 := abs_le.mp (fl_err (fl (c299 * (c.1:ℚ)) + fl (c587 * (c.2.1:ℚ)))
    (by linarith) (by linarith))
  have ha1pos : (0:ℚ) ≤ fl (fl (c299 * (c.1:ℚ)) + fl (c587 * (c.2.1:ℚ))) :=
    fl_nonneg _ (by linarith)
  have hfin := abs_le.mp (fl_err
    (fl (fl (c299 * (c.1:ℚ)) + fl (c587 * (c.2.1:ℚ))) + fl (c114 * (c.2.2:ℚ)))
    (by linarith) (by linarith))
  have hlum : luminance c =
      fl (fl (fl (c299 * (c.1:ℚ)) + fl (c587 * (c.2.1:ℚ))) + fl (c114 * (c.2.2:ℚ))) := rfl
  have hspec : luminanceSpec c =
      (299/1000) * (c.1:ℚ) + (587/1000) * (c.2.1:ℚ) + (114/1000) * (c.2.2:ℚ) := by
    unfold luminanceSpec
    norm_num
  have hspec255 : (299/1000) * (c.1:ℚ) + (587/1000) * (c.2.1:ℚ) + (114/1000) * (c.2.2:ℚ)
      ≤ 255 := by linarith
  refine ⟨?_, ?_, ?_⟩
  · rw [hlum, hspec, abs_le]
    constructor <;> linarith
  · rw [hlum]
    exact fl_nonneg _ (by linarith)
  · rw [hlum]
    linarith

/-- Distinct exact luminances of 8-bit colours differ by at least
`1/1000` (they are integer multiples of `1/1000`). -/
theorem luminanceSpec_gap (c d : RGB) (h : luminanceSpec c < luminanceSpec d) :
    luminanceSpec c + 1/1000 ≤ luminanceSpec d := by
  have hc : luminanceSpec c = ((299 * c.1 + 587 * c.2.1 + 114 * c.2.2 : ℕ) : ℚ) / 1000 := by
    unfold luminanceSpec
    push_cast
    ring
  have hd : luminanceSpec d = ((299 * d.1 + 587 * d.2.1 + 114 * d.2.2 : ℕ) : ℚ) / 1000 := by
    unfold luminanceSpec
    push_cast
    ring
  rw [hc, hd] at h ⊢
  have hnat : (299 * c.1 + 587 * c.2.1 + 114 * c.2.2 : ℕ)
      < (299 * d.1 + 587 * d.2.1 + 114 * d.2.2 : ℕ) := by
    by_contra hcon
    push_neg at hcon
    have : ((299 * d.1 + 587 * d.2.1 + 114 * d.2.2 : ℕ) : ℚ)
        ≤ ((299 * c.1 + 587 * c.2.1 + 114 * c.2.2 : ℕ) : ℚ) := by exact_mod_cast hcon
    linarith
  have : ((299 * c.1 + 587 * c.2.1 + 114 * c.2.2 : ℕ) : ℚ) + 1
      ≤ ((299 * d.1 + 587 * d.2.1 + 114 * d.2.2 : ℕ) : ℚ) := by exact_mod_cast hnat
  linarith

/-- The computed binary64 luminance respects every strict comparison of
the exact formula on 8-bit colours (rounding can only break exact ties). -/
theorem luminance_order (c d : RGB)
    (hc1 : c.1 ≤ 255) (hc2 : c.2.1 ≤ 255) (hc3 : c.2.2 ≤ 255)
    (hd1 : d.1 ≤ 255) (hd2 : d.2.1 ≤ 255) (hd3 : d.2.2 ≤ 255)
    (h : luminanceSpec c < luminanceSpec d) : luminance c < luminance d := by
  have hgap := luminanceSpec_gap c d h
  have hac := abs_le.mp (luminance_approx c hc1 hc2 hc3).1
  have had := abs_le.mp (luminance_approx d hd1 hd2 hd3).1
  linarith

/-! ### Claim theorems about the nearest-colour and extremum searches -/

/-- C1: for every RGB pixel and non-empty palette, `_find_closest_color`
returns the key of the entry minimising squared RGB Euclidean distance,
scanning in declared order and replacing only on strictly smaller distance,
so among equally-distant entries the earliest-declared key wins; the result
is a key present in the palette, and a single-entry palette returns its
sole key. -/
theorem findClosestColor_nearest (rgb : RGB) (pal : Palette) (hne : pal ≠ []) :
    (∃ p e s, pal = p ++ e :: s ∧
      findClosestColor rgb pal = e.1 ∧
      (∀ x ∈ pal, distSq rgb e.2 ≤ distSq rgb x.2) ∧
      (∀ x ∈ p, distSq rgb e.2 < distSq rgb x.2)) ∧
    findClosestColor rgb pal ∈ pal.map Prod.fst ∧
    (∀ k c, pal = [(k, c)] → findClosestColor rgb pal = k) := by
  refine ⟨findClosestColor_argmin rgb pal hne, findClosestColor_mem rgb pal hne, ?_⟩
  intro k c hpal
  subst hpal
  rfl

/-- Concrete instance of C1: nearest colour to (10,20,30) in a two-entry
palette, with black strictly nearer than white. -/
theorem findClosestColor_nearest_witness :
    (∃ p e s, ([("00", ((0, 0, 0) : RGB)), ("01", (255, 255, 255))] : Palette) = p ++ e :: s ∧
      findClosestColor (10, 20, 30) [("00", (0, 0, 0)), ("01", (255, 255, 255))] = e.1 ∧
      (∀ x ∈ ([("00", ((0, 0, 0) : RGB)), ("01", (255, 255, 255))] : Palette),
        distSq (10, 20, 30) e.2 ≤ distSq (10, 20, 30) x.2) ∧
      (∀ x ∈ p, distSq (10, 20, 30) e.2 < distSq (10, 20, 30) x.2)) ∧
    findClosestColor (10, 20, 30) [("00", (0, 0, 0)), ("01", (255, 255, 255))] ∈
      ([("00", ((0, 0, 0) : RGB)), ("01", (255, 255, 255))] : Palette).map Prod.fst ∧
    (∀ k c, ([("00", ((0, 0, 0) : RGB)), ("01", (255, 255, 255))] : Palette) = [(k, c)] →
      findClosestColor (10, 20, 30) [("00", (0, 0, 0)), ("01", (255, 255, 255))] = k) :=
  findClosestColor_nearest (10, 20, 30) [("00", (0, 0, 0)), ("01", (255, 255, 255))]
    (by decide)

/-- C5 (amended): for every non-empty 8-bit palette, the darkest-colour
search returns the key of the earliest entry minimising the *computed*
binary64 luminance (strict-< replacement, so equal computed values keep
the earlier key); that entry also minimises the exact formula
`0.299R + 0.587G + 0.114B`, but among entries whose exact luminances tie,
rounding may select a later one. -/
theorem darkestColorKey_binary64 (pal : Palette) (hne : pal ≠ [])
    (hch : ∀ e ∈ pal, e.2.1 ≤ 255 ∧ e.2.2.1 ≤ 255 ∧ e.2.2.2 ≤ 255) :
    ∃ p e s, pal = p ++ e :: s ∧
      darkestColorKey pal = e.1 ∧
      (∀ x ∈ pal, luminance e.2 ≤ luminance x.2) ∧
      (∀ x ∈ p, luminance e.2 < luminance x.2) ∧
      (∀ x ∈ pal, luminanceSpec e.2 ≤ luminanceSpec x.2) := by
  have hkey : darkestColorKey pal = (scanBest (fun e => luminance e.2) "00" 256 pal).1 := by
    simp [darkestColorKey, preparePaletteExtremes_eq]
  rcases scanBest_spec (fun e => luminance e.2) pal "00" 256 with
    ⟨hall, -⟩ | ⟨p, e, s, hsplit, -, hp, hs, heq⟩
  · exfalso
    match pal, hne with
    | a :: rest, _ =>
      have hle := hall a (by simp)
      rcases hch a (by simp) with ⟨k1, k2, k3⟩
      have hlt := (luminance_approx a.2 k1 k2 k3).2.2
      exact absurd hle (not_le.mpr hlt)
  · have hmin : ∀ x ∈ pal, luminance e.2 ≤ luminance x.2 := by
      intro x hx
      rcases List.mem_append.mp (hsplit ▸ hx) with hx | hx
      · exact le_of_lt (hp x hx)
      · rcases List.mem_cons.mp hx with hx | hx
        · exact hx ▸ le_refl _
        · exact hs x hx
    refine ⟨p, e, s, hsplit, by rw [hkey, heq], hmin, hp, ?_⟩
    intro x hx
    by_contra hcon
    push_neg at hcon
    have hex : e ∈ pal := by
      rw [hsplit]
      simp
    rcases hch e hex with ⟨e1, e2, e3⟩
    rcases hch x hx with ⟨x1, x2, x3⟩
    have hlt := luminance_order x.2 e.2 x1 x2 x3 e1 e2 e3 hcon
    exact absurd (hmin x hx) (not_le.mpr hlt)

/-- Refutation of C5 as stated: the entries `(11,9,177)` and `(10,40,20)`
tie exactly under the claimed formula (both 28.75), yet the program does
not keep the earlier key: evaluated in binary64 the second entry comes
out strictly smaller, so the scan replaces the first and returns `"01"`. -/
theorem darkestColorKey_tie_counterexample :
    luminanceSpec (11, 9, 177) = luminanceSpec (10, 40, 20) ∧
    luminance (10, 40, 20) < luminance (11, 9, 177) ∧
    darkestColorKey [("00", (11, 9, 177)), ("01", (10, 40, 20))] = "01" ∧
    ("01" : String) ≠ "00" := by
  have hc299v : c299 = 5386305154335113/18014398509481984 := by
    unfold c299
    rw [fl_eval (299/1000) (-2) 5386305154335113 (by norm_num) (by norm_num) (by norm_num)
      (by norm_num) (by norm_num)]
    norm_num
  have hc587v : c587 = 2643612981266481/4503599627370496 := by
    unfold c587
    rw [fl_eval (587/1000) (-1) 5287225962532962 (by norm_num) (by norm_num) (by norm_num)
      (by norm_num) (by norm_num)]
    norm_num
  have hc114v : c114 = 8214565720323785/72057594037927936 := by
    unfold c114
    rw [fl_eval_up (114/1000) (-4) 8214565720323784 (by norm_num) (by norm_num) (by norm_num)
      (by norm_num) (by norm_num)]
    norm_num
  have hAm1 : fl (59249356697686243/18014398509481984) = 1851542396802695/562949953421312 := by
    rw [fl_eval (59249356697686243/18014398509481984) 1 7406169587210780 (by norm_num)
      (by norm_num) (by norm_num) (by norm_num) (by norm_num)]
    norm_num
  have hAm2 : fl (23792516831398329/4503599627370496) = 2974064603924791/562949953421312 := by
    rw [fl_eval (23792516831398329/4503599627370496) 2 5948129207849582 (by norm_num)
      (by norm_num) (by norm_num) (by norm_num) (by norm_num)]
    norm_num
  have hAm3 : fl (1453978132497309945/72057594037927936) = 5679602080067617/281474976710656 := by
    rw [fl_eval_up (1453978132497309945/72057594037927936) 4 5679602080067616 (by norm_num)
      (by norm_num) (by norm_num) (by norm_num) (by norm_num)]
    norm_num
  have hAa1 : fl (2412803500363743/281474976710656) = 2412803500363743/281474976710656 := by
    rw [fl_eval (2412803500363743/281474976710656) 3 4825607000727486 (by norm_num)
      (by norm_num) (by norm_num) (by norm_num) (by norm_num)]
    norm_num
  have hAt : fl (115/4) = 115/4 := by
    rw [fl_eval (115/4) 4 8092405580431360 (by norm_num) (by norm_num) (by norm_num)
      (by norm_num) (by norm_num)]
    norm_num
  have hBm1 : fl (26931525771675565/9007199254740992) = 6732881442918891/2251799813685248 := by
    rw [fl_eval (26931525771675565/9007199254740992) 1 6732881442918891 (by norm_num)
      (by norm_num) (by norm_num) (by norm_num) (by norm_num)]
    norm_num
  have hBm2 : fl (13218064906332405/562949953421312) = 3304516226583101/140737488355328 := by
    rw [fl_eval_tie_even (13218064906332405/562949953421312) 4 6609032453166202 (by norm_num)
      (by norm_num) (by norm_num) (by norm_num) (by norm_num)]
    norm_num
  have hBm3 : fl (41072828601618925/18014398509481984) = 2567051787601183/1125899906842624 := by
    rw [fl_eval_up (41072828601618925/18014398509481984) 1 5134103575202365 (by norm_num)
      (by norm_num) (by norm_num) (by norm_num) (by norm_num)]
    norm_num
  have hBa1 : fl (59605141068248507/2251799813685248) = 7450642633531063/281474976710656 := by
    rw [fl_eval (59605141068248507/2251799813685248) 4 7450642633531063 (by norm_num)
      (by norm_num) (by norm_num) (by norm_num) (by norm_num)]
    norm_num
  have hBt : fl (32369622321725435/1125899906842624) = 8092405580431359/281474976710656 := by
    rw [fl_eval_up (32369622321725435/1125899906842624) 4 8092405580431358 (by norm_num)
      (by norm_num) (by norm_num) (by norm_num) (by norm_num)]
    norm_num
  have hA : luminance (11, 9, 177) = 115/4 := by
    show fl (fl (fl (c299 * ((11:ℕ):ℚ)) + fl (c587 * ((9:ℕ):ℚ))) +
      fl (c114 * ((177:ℕ):ℚ))) = 115/4
    rw [hc299v, hc587v, hc114v]
    norm_num [hAm1, hAm2, hAm3, hAa1, hAt]
  have hB : luminance (10, 40, 20) = 8092405580431359/281474976710656 := by
    show fl (fl (fl (c299 * ((10:ℕ):ℚ)) + fl (c587 * ((40:ℕ):ℚ))) +
      fl (c114 * ((20:ℕ):ℚ))) = 8092405580431359/281474976710656
    rw [hc299v, hc587v, hc114v]
    norm_num [hBm1, hBm2, hBm3, hBa1, hBt]
  refine ⟨by norm_num [luminanceSpec], ?_, ?_, by decide⟩
  · rw [hA, hB]
    norm_num
  · have heq := preparePaletteExtremes_eq [("00", (11, 9, 177)), ("01", (10, 40, 20))]
    unfold darkestColorKey
    rw [heq]
    simp only [scanBest, hA, hB]
    norm_num

/-- Concrete instance of C5 (amended): in a palette declaring white before
black, the darkest key is the black entry. -/
theorem darkestColorKey_binary64_witness :
    ∃ p e s, ([("07", ((255, 255, 255) : RGB)), ("03", (0, 0, 0))] : Palette) = p ++ e :: s ∧
      darkestColorKey [("07", (255, 255, 255)), ("03", (0, 0, 0))] = e.1 ∧
      (∀ x ∈ ([("07", ((255, 255, 255) : RGB)), ("03", (0, 0, 0))] : Palette),
        luminance e.2 ≤ luminance x.2) ∧
      (∀ x ∈ p, luminance e.2 < luminance x.2) ∧
      (∀ x ∈ ([("07", ((255, 255, 255) : RGB)), ("03", (0, 0, 0))] : Palette),
        luminanceSpec e.2 ≤ luminanceSpec x.2) :=
  darkestColorKey_binary64 [("07", (255, 255, 255)), ("03", (0, 0, 0))]
    (by decide) (by decide)

/-- C4 (code bug): the loop of `_prepare_dithering_palette` never updates
`lightest_color_key`, so it is the literal `"00"` for every palette; in
particular, for a palette declaring black as `"00"` and white as `"01"`,
the code yields `"00"` even though `"01"` has strictly greater luminance. -/
theorem lightestColorKey_never_updated :
    (∀ pal : Palette, lightestColorKey pal = "00") ∧
    lightestColorKey [("00", (0, 0, 0)), ("01", (255, 255, 255))] = "00" ∧
    luminance (0, 0, 0) < luminance (255, 255, 255) := by
  refine ⟨?_, ?_, ?_⟩
  · intro pal
    simp [lightestColorKey, preparePaletteExtremes_eq]
  · simp [lightestColorKey, preparePaletteExtremes_eq]
  · have hz : luminance (0, 0, 0) = 0 := by
      show fl (fl (fl (c299 * ((0:ℕ):ℚ)) + fl (c587 * ((0:ℕ):ℚ))) +
        fl (c114 * ((0:ℕ):ℚ))) = 0
      norm_num [fl_zero]
    have hs : luminanceSpec (255, 255, 255) = 255 := by
      norm_num [luminanceSpec]
    have ha := (luminance_approx (255, 255, 255) (le_refl _) (le_refl _) (le_refl _)).1
    rw [hs] at ha
    have hb := (abs_le.mp ha).1
    rw [hz]
    linarith

/-- C10: on the empty palette `_find_closest_color` returns the fixed
default `"00"`, which is not a key of the (empty) palette; on any non-empty
palette the default is overwritten, the result being one of the palette's
keys. -/
theorem findClosestColor_default (rgb : RGB) :
    findClosestColor rgb [] = "00" ∧
    "00" ∉ ([] : Palette).map Prod.fst ∧
    (∀ pal : Palette, pal ≠ [] → findClosestColor rgb pal ∈ pal.map Prod.fst) := by
  exact ⟨rfl, by simp, fun pal hne => findClosestColor_mem rgb pal hne⟩

/-- Concrete instance of C10: empty palette yields `"00"`; the singleton
palette `[("07", (9,9,9))]` yields one of its keys. -/
theorem findClosestColor_default_witness :
    findClosestColor (1, 2, 3) [] = "00" ∧
    "00" ∉ ([] : Palette).map Prod.fst ∧
    findClosestColor (1, 2, 3) [("07", (9, 9, 9))] ∈
      ([("07", ((9, 9, 9) : RGB))] : Palette).map Prod.fst :=
  ⟨(findClosestColor_default (1, 2, 3)).1, (findClosestColor_default (1, 2, 3)).2.1,
    (findClosestColor_default (1, 2, 3)).2.2 [("07", (9, 9, 9))] (by decide)⟩

/-! ### Command emission (`_select_and_process_image`, lines 199-222) -/

/-- The grid side length, `CANVAS_SIZE = 32` (line 11). -/
def canvasSize : ℕ := 32

/-- One command line, the f-string of line 210:
`f"!pixel {x},{y},{closest_color_key}"`. -/
def pixelCmd (x y : ℕ) (k : String) : String :=
  "!pixel " ++ toString x ++ "," ++ toString y ++ "," ++ k

/-- The command-generation loop of lines 199-210: `y` outer, `x` inner over
`range(CANVAS_SIZE)`; pixels with alpha below 128 are skipped, every other
pixel appends one command resolved through `_find_closest_color`. -/
def emitCommands (pal : Palette) (px : ℕ → ℕ → Pixel) : List String :=
  (List.range canvasSize).foldl
    (fun acc y =>
      (List.range canvasSize).foldl
        (fun acc2 x =>
          let p := px x y
          if p.a < 128 then acc2
          else acc2 ++ [pixelCmd x y (findClosestColor (p.r, p.g, p.b) pal)])
        acc)
    []

/-- Line 222: the command lines are newline-joined in emission order. -/
def emitOutput (pal : Palette) (px : ℕ → ℕ → Pixel) : String :=
  String.intercalate "\n" (emitCommands pal px)

/-- The command (if any) produced for the pixel at `(x, y)`. -/
def cmdAt (pal : Palette) (px : ℕ → ℕ → Pixel) (y x : ℕ) : Option String :=
  let p := px x y
  if p.a < 128 then none
  else some (pixelCmd x y (findClosestColor (p.r, p.g, p.b) pal))

theorem foldl_skip_append {α : Type} (g : α → Option String) :
    ∀ (l : List α) (acc : List String),
      l.foldl
        (fun acc2 x =>
          match g x with
          | none => acc2
          | some s => acc2 ++ [s])
        acc = acc ++ l.filterMap g := by
  intro l
  induction l with
  | nil => intro acc; simp
  | cons a as ih =>
    intro acc
    cases hg : g a with
    | none => simp [List.filterMap_cons, hg, ih]
    | some s => simp [List.filterMap_cons, hg, ih]

/-- The inner `for x` loop accumulates exactly the filter-mapped row. -/
theorem emit_inner_eq (pal : Palette) (px : ℕ → ℕ → Pixel) (y : ℕ)
    (l : List ℕ) (acc : List String) :
    l.foldl
      (fun acc2 x =>
        let p := px x y
        if p.a < 128 then acc2
        else acc2 ++ [pixelCmd x y (findClosestColor (p.r, p.g, p.b) pal)])
      acc = acc ++ l.filterMap (cmdAt pal px y) := by
  have step : ∀ (acc2 : List String) (x : ℕ),
      (let p := px x y
        if p.a < 128 then acc2
        else acc2 ++ [pixelCmd x y (findClosestColor (p.r, p.g, p.b) pal)]) =
      (match cmdAt pal px y x with
        | none => acc2
        | some s => acc2 ++ [s]) := by
    intro acc2 x
    by_cases hp : (px x y).a < 128 <;> simp [cmdAt, hp]
  calc l.foldl
        (fun acc2 x =>
          let p := px x y
          if p.a < 128 then acc2
          else acc2 ++ [pixelCmd x y (findClosestColor (p.r, p.g, p.b) pal)])
        acc
      = l.foldl
          (fun acc2 x =>
            match cmdAt pal px y x with
            | none => acc2
            | some s => acc2 ++ [s])
          acc := by
        congr 1
        funext acc2 x
        exact step acc2 x
    _ = acc ++ l.filterMap (cmdAt pal px y) := foldl_skip_append _ l acc

theorem foldl_append_flatMap {α : Type} (row : α → List String) :
    ∀ (l : List α) (acc : List String),
      l.foldl (fun a y => a ++ row y) acc = acc ++ l.flatMap row := by
  intro l
  induction l with
  | nil => intro acc; simp
  | cons a as ih => intro acc; simp [ih, List.flatMap_cons]

/-- Helper: the nested emission loops equal a row-major flat-map of
per-pixel optional commands. -/
theorem emitCommands_eq (pal : Palette) (px : ℕ → ℕ → Pixel) :
    emitCommands pal px =
      (List.range canvasSize).flatMap
        (fun y => (List.range canvasSize).filterMap (cmdAt pal px y)) := by
  unfold emitCommands
  calc (List.range canvasSize).foldl
        (fun acc y =>
          (List.range canvasSize).foldl
            (fun acc2 x =>
              let p := px x y
              if p.a < 128 then acc2
              else acc2 ++ [pixelCmd x y (findClosestColor (p.r, p.g, p.b) pal)])
            acc)
        []
      = (List.range canvasSize).foldl
          (fun acc y => acc ++ (List.range canvasSize).filterMap (cmdAt pal px y)) [] := by
        congr 1
        funext acc y
        exact emit_inner_eq pal px y (List.range canvasSize) acc
    _ = [] ++ (List.range canvasSize).flatMap
          (fun y => (List.range canvasSize).filterMap (cmdAt pal px y)) :=
        foldl_append_flatMap _ (List.range canvasSize) []
    _ = (List.range canvasSize).flatMap
          (fun y => (List.range canvasSize).filterMap (cmdAt pal px y)) := by simp

/-- C2: the emitter visits the final grid in row-major order (`y` outer,
`x` inner); a pixel with alpha below 128 contributes no command, every
other pixel contributes exactly one line `!pixel x,y,key` with the key
resolved by `_find_closest_color`, and the output joins those lines with
newlines in emission order. -/
theorem emit_row_major (pal : Palette) (px : ℕ → ℕ → Pixel) :
    emitCommands pal px =
      (List.range canvasSize).flatMap
        (fun y => (List.range canvasSize).filterMap
          (fun x =>
            let p := px x y
            if p.a < 128 then none
            else some (pixelCmd x y (findClosestColor (p.r, p.g, p.b) pal)))) ∧
    emitOutput pal px = String.intercalate "\n" (emitCommands pal px) := by
  exact ⟨emitCommands_eq pal px, rfl⟩

/-! ### The processing pipeline (`_select_and_process_image`, lines 140-193)

The script delegates image resampling and filtering to Pillow.  The simple
operations (centre crop, nearest-neighbour resize, rank filter, stencil
paste, alpha reattachment) are modelled concretely from their documented
behaviour; the elaborate resampling kernels (Lanczos, Floyd-Steinberg
quantisation, median filter, contour filter) are abstracted as parameters,
as the spec's `ImageOps` capability interface prescribes. -/

/-- `SUPER_SAMPLE_FACTOR = 10` (line 13). -/
def superSampleFactor : ℕ := 10

/-- The centre-crop box of lines 144-150: `short = min(width, height)`,
`left = (width - short)/2`, `top = (height - short)/2`,
`right = (width + short)/2`, `bottom = (height + short)/2`, in float
(here exact rational) arithmetic, then rounded per coordinate by the crop. -/
def cropBox (wd ht : ℕ) : ℤ × ℤ × ℤ × ℤ :=
  (pyRound (((wd : ℚ) - ((min wd ht : ℕ) : ℚ)) / 2),
    pyRound (((ht : ℚ) - ((min wd ht : ℕ) : ℚ)) / 2),
    pyRound (((wd : ℚ) + ((min wd ht : ℕ) : ℚ)) / 2),
    pyRound (((ht : ℚ) + ((min wd ht : ℕ) : ℚ)) / 2))

/-- The crop of line 151: the new raster spans the rounded box. -/
def cropCenter (src : Image) : Image :=
  let b := cropBox src.w src.h
  ⟨(b.2.2.1 - b.1).toNat, (b.2.2.2 - b.2.1).toNat,
    fun x y => src.pix (x + b.1.toNat) (y + b.2.1.toNat)⟩

/-- Read a pixel with zero padding outside the raster (Pillow's rank
filter expands the image with a zero border before filtering). -/
def getPixPad (im : Image) (i j : ℤ) : Pixel :=
  if 0 ≤ i ∧ i < (im.w : ℤ) ∧ 0 ≤ j ∧ j < (im.h : ℤ) then im.pix i.toNat j.toNat
  else ⟨0, 0, 0, 0⟩

/-- Stable insertion into a sorted list under a boolean order. -/
def insertBy {α : Type} (le : α → α → Bool) (v : α) : List α → List α
  | [] => [v]
  | x :: xs => if le v x then v :: x :: xs else x :: insertBy le v xs

/-- Stable insertion sort under a boolean order. -/
def insertionSortBy {α : Type} (le : α → α → Bool) : List α → List α
  | [] => []
  | x :: xs => insertBy le x (insertionSortBy le xs)

/-- The `rank`-th smallest of a list of channel values. -/
def rankOf (vals : List ℕ) (rk : ℕ) : ℕ :=
  (insertionSortBy (fun a b => decide (a ≤ b)) vals).getD rk 0

/-- The 5×5 neighbourhood of `(x, y)`, zero-padded at the borders. -/
def neighborhood5 (im : Image) (x y : ℕ) : List Pixel :=
  (List.range 5).flatMap fun dy =>
    (List.range 5).map fun dx =>
      getPixPad im ((x : ℤ) + dx - 2) ((y : ℤ) + dy - 2)

/-- `ImageFilter.RankFilter(size=5, rank=rk)` (line 189), applied per band:
each output channel is the `rk`-th smallest value of the 5×5 window. -/
def rankFilter5 (rk : ℕ) (im : Image) : Image :=
  ⟨im.w, im.h, fun x y =>
    let nb := neighborhood5 im x y
    ⟨rankOf (nb.map Pixel.r) rk, rankOf (nb.map Pixel.g) rk,
      rankOf (nb.map Pixel.b) rk, rankOf (nb.map Pixel.a) rk⟩⟩

/-- `Image.Resampling.NEAREST` resize (line 193): point-sample the source
at the centre of each destination pixel's footprint. -/
def resizeNearest (im : Image) (wt ht : ℕ) : Image :=
  ⟨wt, ht, fun x y =>
    im.pix ((2 * x + 1) * im.w / (2 * wt)) ((2 * y + 1) * im.h / (2 * ht))⟩

/-- `putalpha` (line 183): replace the alpha channel by the given mask. -/
def putalpha (im : Image) (mask : ℕ → ℕ → ℕ) : Image :=
  ⟨im.w, im.h, fun x y => { im.pix x y with a := mask x y }⟩

/-- `convert("RGB")` then back: drops the alpha band (set opaque). -/
def toRGB (im : Image) : Image :=
  ⟨im.w, im.h, fun x y => { im.pix x y with a := 255 }⟩

/-- `convert('L')` single-channel luminance (line 170). -/
def lumaOf (im : Image) : ℕ → ℕ → ℕ :=
  fun x y =>
    let p := im.pix x y
    (299 * p.r + 587 * p.g + 114 * p.b) / 1000

/-- `paste(layer, mask=...)` (line 179) with a binary 0/255 mask: full
replacement by the solid colour wherever the mask is set. -/
def pasteStencil (base : Image) (col : RGB) (mask : ℕ → ℕ → ℕ) : Image :=
  ⟨base.w, base.h, fun x y =>
    if 128 ≤ mask x y then ⟨col.1, col.2.1, col.2.2, 255⟩ else base.pix x y⟩

/-- `self.palette_data[self.darkest_color_key]["rgb"]` (line 176). -/
def darkestRGB (pal : Palette) : RGB :=
  ((pal.find? fun e => e.1 == darkestColorKey pal).map Prod.snd).getD (0, 0, 0)

/-- The Pillow operations the script delegates to and that the spec keeps
behind a capability interface: Lanczos resampling (returns the pixel
function of the requested target size), Floyd-Steinberg palette
quantisation, the 11×11 median filter, and the contour filter on a
luminance channel. -/
structure PilOps where
  resizeLanczos : Image → ℕ → ℕ → (ℕ → ℕ → Pixel)
  quantizeDither : Image → Image
  medianFilter11 : Image → Image
  contour : (ℕ → ℕ → ℕ) → (ℕ → ℕ → ℕ)

/-- The full pipeline of `_select_and_process_image` steps 2-10
(lines 143-193): centre crop when non-square, Lanczos supersample to
320×320, split the alpha silhouette, dither-quantise and median-filter the
colour fill, threshold the contour of the luminance into a line mask,
paste the darkest palette colour through that mask, reattach the alpha,
denoise with the rank filter, and nearest-resize down to 32×32. -/
def pipeline (ops : PilOps) (pal : Palette) (src : Image) : Image :=
  let img := if src.w ≠ src.h then cropCenter src else src
  let superSize := canvasSize * superSampleFactor
  let hi : Image := ⟨superSize, superSize, ops.resizeLanczos img superSize superSize⟩
  let alphaMask : ℕ → ℕ → ℕ := fun x y => (hi.pix x y).a
  let fill := ops.medianFilter11 (ops.quantizeDither (toRGB hi))
  let lineMask : ℕ → ℕ → ℕ := fun x y => if ops.contour (lumaOf hi) x y < 128 then 255 else 0
  let pasted := pasteStencil ⟨superSize, superSize, fill.pix⟩ (darkestRGB pal) lineMask
  let withAlpha := putalpha pasted alphaMask
  let denoised := rankFilter5 20 withAlpha
  resizeNearest denoised canvasSize canvasSize

/-! ### Safety of the emitter (C3) -/

theorem mem_insertBy {α : Type} (le : α → α → Bool) (v x : α) :
    ∀ l : List α, x ∈ insertBy le v l ↔ x = v ∨ x ∈ l := by
  intro l
  induction l with
  | nil => simp [insertBy]
  | cons a as ih =>
    by_cases hle : le v a
    · simp [insertBy, hle]
    · rw [insertBy, if_neg (by simp [hle])]
      simp only [List.mem_cons, ih]
      tauto

theorem mem_insertionSortBy {α : Type} (le : α → α → Bool) (x : α) :
    ∀ l : List α, x ∈ insertionSortBy le l ↔ x ∈ l := by
  intro l
  induction l with
  | nil => simp [insertionSortBy]
  | cons a as ih => simp [insertionSortBy, mem_insertBy, ih]

theorem getD_zero_of_all_zero : ∀ (l : List ℕ) (n : ℕ), (∀ v ∈ l, v = 0) →
    l.getD n 0 = 0 := by
  intro l
  induction l with
  | nil => intro n _; simp
  | cons a as ih =>
    intro n hall
    cases n with
    | zero => simpa using hall a (by simp)
    | succ m =>
      simp only [List.getD_cons_succ]
      exact ih m (fun v hv => hall v (by simp [hv]))

theorem rankOf_zero (vals : List ℕ) (rk : ℕ) (h : ∀ v ∈ vals, v = 0) :
    rankOf vals rk = 0 := by
  unfold rankOf
  exact getD_zero_of_all_zero _ rk
    (fun v hv => h v ((mem_insertionSortBy _ v vals).mp hv))

theorem filterMap_length_le {α β : Type} (f : α → Option β) :
    ∀ l : List α, (l.filterMap f).length ≤ l.length := by
  intro l
  induction l with
  | nil => simp
  | cons a as ih =>
    cases hf : f a with
    | none => simp [List.filterMap_cons, hf]; omega
    | some b => simp [List.filterMap_cons, hf]; omega

theorem flatMap_length_le {α : Type} (row : α → List String) (n : ℕ)
    (hrow : ∀ a, (row a).length ≤ n) :
    ∀ l : List α, (l.flatMap row).length ≤ n * l.length := by
  intro l
  induction l with
  | nil => simp
  | cons a as ih =>
    simp only [List.flatMap_cons, List.length_append, List.length_cons]
    calc (row a).length + (as.flatMap row).length ≤ n + n * as.length :=
          Nat.add_le_add (hrow a) ih
      _ = n * (as.length + 1) := by ring

/-- Helper: if every pixel of `im` has zero alpha, so does every padded
read. -/
theorem getPixPad_alpha_zero (im : Image) (hz : ∀ x y, (im.pix x y).a = 0)
    (i j : ℤ) : (getPixPad im i j).a = 0 := by
  unfold getPixPad
  split
  · exact hz _ _
  · rfl

/-- C3: the emitter never produces a command at coordinates outside
`[0, 32)`, never emits more than `32² = 1024` commands, and the full
pipeline applied to a fully transparent source (alpha 0 everywhere) emits
zero commands — provided the abstract Lanczos resampler maps a zero alpha
channel to a zero alpha channel, as any weighted resampling kernel does. -/
theorem emit_safety (pal : Palette) (ops : PilOps) (src : Image)
    (hL : ∀ (im : Image) (wt ht : ℕ),
      (∀ x y, (im.pix x y).a = 0) → ∀ x y, (ops.resizeLanczos im wt ht x y).a = 0)
    (htrans : ∀ x y, (src.pix x y).a = 0) :
    (∀ px : ℕ → ℕ → Pixel,
      (emitCommands pal px).length ≤ 1024 ∧
      ∀ c ∈ emitCommands pal px,
        ∃ x y k, x < 32 ∧ y < 32 ∧ c = pixelCmd x y k) ∧
    emitCommands pal (pipeline ops pal src).pix = [] := by
  constructor
  · intro px
    constructor
    · rw [emitCommands_eq]
      have hrow : ∀ y, ((List.range canvasSize).filterMap (cmdAt pal px y)).length ≤ 32 := by
        intro y
        calc ((List.range canvasSize).filterMap (cmdAt pal px y)).length
            ≤ (List.range canvasSize).length := filterMap_length_le _ _
          _ = 32 := by simp [canvasSize]
      calc ((List.range canvasSize).flatMap
            (fun y => (List.range canvasSize).filterMap (cmdAt pal px y))).length
          ≤ 32 * (List.range canvasSize).length := flatMap_length_le _ 32 hrow _
        _ = 1024 := by simp [canvasSize]
    · intro c hc
      rw [emitCommands_eq] at hc
      rcases List.mem_flatMap.mp hc with ⟨y, hy, hcy⟩
      rcases List.mem_filterMap.mp hcy with ⟨x, hx, hcx⟩
      refine ⟨x, y, findClosestColor ((px x y).r, (px x y).g, (px x y).b) pal,
        by simpa [canvasSize] using List.mem_range.mp hx,
        by simpa [canvasSize] using List.mem_range.mp hy, ?_⟩
      unfold cmdAt at hcx
      by_cases hp : (px x y).a < 128
      · simp [hp] at hcx
      · simp only [hp, if_false] at hcx
        exact (Option.some_injective _ hcx).symm
  · have hfinal : ∀ x y, ((pipeline ops pal src).pix x y).a = 0 := by
      intro x y
      simp only [pipeline, resizeNearest, rankFilter5]
      apply rankOf_zero
      intro v hv
      rcases List.mem_map.mp hv with ⟨p, hp, hpv⟩
      unfold neighborhood5 at hp
      rcases List.mem_flatMap.mp hp with ⟨dy, -, hdy⟩
      rcases List.mem_map.mp hdy with ⟨dx, -, hdx⟩
      rw [← hpv, ← hdx]
      apply getPixPad_alpha_zero
      intro x' y'
      show (ops.resizeLanczos (if src.w ≠ src.h then cropCenter src else src)
        (canvasSize * superSampleFactor) (canvasSize * superSampleFactor) x' y').a = 0
      refine hL _ _ _ ?_ x' y'
      intro x'' y''
      by_cases hsq : src.w ≠ src.h
      · rw [if_pos hsq]
        exact htrans _ _
      · rw [if_neg hsq]
        exact htrans _ _
    rw [emitCommands_eq]
    have hnone : ∀ y x, cmdAt pal (pipeline ops pal src).pix y x = none := by
      intro y x
      unfold cmdAt
      have := hfinal x y
      simp [this]
    apply List.flatMap_eq_nil_iff.mpr
    intro y _
    apply List.filterMap_eq_nil_iff.mpr
    intro x _
    exact hnone y x

/-- Concrete instance of C3: a trivial resampler (point pass-through), a
2×2 fully transparent source, and a one-entry palette. -/
theorem emit_safety_witness :
    (∀ px : ℕ → ℕ → Pixel,
      (emitCommands [("00", (0, 0, 0))] px).length ≤ 1024 ∧
      ∀ c ∈ emitCommands [("00", (0, 0, 0))] px,
        ∃ x y k, x < 32 ∧ y < 32 ∧ c = pixelCmd x y k) ∧
    emitCommands [("00", (0, 0, 0))]
      (pipeline
        ⟨fun im _ _ => im.pix, id, id, id⟩
        [("00", (0, 0, 0))]
        ⟨2, 2, fun _ _ => ⟨0, 0, 0, 0⟩⟩).pix = [] :=
  emit_safety [("00", (0, 0, 0))] ⟨fun im _ _ => im.pix, id, id, id⟩
    ⟨2, 2, fun _ _ => ⟨0, 0, 0, 0⟩⟩
    (fun _ _ _ hz x y => hz x y)
    (fun _ _ => rfl)

/-! ### Palette loading (`_load_palette`, lines 70-78, and `_hex_to_rgb`,
lines 65-68) -/

/-- A hexadecimal digit, as accepted by Python's `int(s, 16)` on plain
digit strings. -/
def isHexDigit (c : Char) : Bool :=
  c.isDigit || ('a' ≤ c && c ≤ 'f') || ('A' ≤ c && c ≤ 'F')

/-- The value of a hexadecimal digit. -/
def hexDigitVal (c : Char) : ℕ :=
  if c.isDigit then c.toNat - '0'.toNat
  else if 'a' ≤ c && c ≤ 'f' then c.toNat - 'a'.toNat + 10
  else c.toNat - 'A'.toNat + 10

/-- `int(s, 16)`: succeeds on a non-empty all-hex-digit string, raises
`ValueError` (modelled as `none`) otherwise. -/
def pyIntHex (s : String) : Option ℕ :=
  if !s.toList.isEmpty && s.toList.all isHexDigit then
    some (s.toList.foldl (fun a c => 16 * a + hexDigitVal c) 0)
  else none

/-- Python string slice `s[i:j]` (truncating at the end of the string). -/
def strSlice (s : String) (i j : ℕ) : String :=
  String.mk ((s.toList.drop i).take (j - i))

/-- `hex_color.lstrip('#')`: drop every leading `#`. -/
def lstripHash (s : String) : String :=
  String.mk (s.toList.dropWhile fun c => c == '#')

/-- `_hex_to_rgb` (lines 65-68): strip `#`, then parse the three 2-digit
slices at offsets 0, 2, 4 in base 16; any slice failing to parse raises
`ValueError`, modelled as `none`. -/
def hexToRgb (s : String) : Option RGB :=
  let t := lstripHash s
  match pyIntHex (strSlice t 0 2), pyIntHex (strSlice t 2 4), pyIntHex (strSlice t 4 6) with
  | some r, some g, some b => some (r, g, b)
  | _, _, _ => none

/-- A JSON palette entry: the field map of the entry object, with string
values (the schema's `{"hex": "#rrggbb"}`). -/
abbrev JsonEntry := List (String × String)

/-- The exception a palette entry can raise inside the dict comprehension
of `_load_palette`: `KeyError` for a missing `hex` field, `ValueError`
from `int(_, 16)` for an unparseable hex value. -/
inductive LoadErr where
  | keyError
  | valueError
  deriving DecidableEq, Repr

/-- The state of the palette source as seen by `_load_palette`: file
missing, file present but not valid JSON, or a parsed JSON object. -/
inductive PaletteSource where
  | missing
  | invalidJson
  | parsed (entries : List (String × JsonEntry))

/-- Outcome of `_load_palette`: a palette, the `None` returned by the
`except (FileNotFoundError, json.JSONDecodeError, KeyError)` clause, or a
`ValueError` that propagates uncaught out of the `try` block. -/
inductive LoadResult where
  | ok (pal : List (String × RGB))
  | errorNone
  | uncaughtValueError
  deriving DecidableEq, Repr

/-- The dict comprehension of line 76, evaluated entry by entry in
declared order; the first exception raised wins. -/
def loadEntries : List (String × JsonEntry) → Except LoadErr (List (String × RGB))
  | [] => .ok []
  | (k, fs) :: rest =>
    match fs.lookup "hex" with
    | none => .error .keyError
    | some hx =>
      match hexToRgb hx with
      | none => .error .valueError
      | some rgb =>
        match loadEntries rest with
        | .ok pal => .ok ((k, rgb) :: pal)
        | .error e => .error e

/-- `_load_palette` (lines 70-78): `FileNotFoundError`, `JSONDecodeError`
and `KeyError` are caught and turned into `None`; a `ValueError` from hex
parsing is not in the except tuple and escapes. -/
def loadPalette : PaletteSource → LoadResult
  | .missing => .errorNone
  | .invalidJson => .errorNone
  | .parsed es =>
    match loadEntries es with
    | .ok pal => .ok pal
    | .error .keyError => .errorNone
    | .error .valueError => .uncaughtValueError

/-- The exception raised by a single entry, if any. -/
def entryErr (e : String × JsonEntry) : Option LoadErr :=
  match e.2.lookup "hex" with
  | none => some .keyError
  | some hx =>
    match hexToRgb hx with
    | none => some .valueError
    | some _ => none

/-- The first exception raised while processing the entries in order. -/
def firstFailure (es : List (String × JsonEntry)) : Option LoadErr :=
  es.findSome? entryErr

theorem loadEntries_error_iff :
    ∀ (es : List (String × JsonEntry)) (k : LoadErr),
      loadEntries es = .error k ↔ firstFailure es = some k := by
  intro es
  induction es with
  | nil => intro k; simp [loadEntries, firstFailure]
  | cons e rest ih =>
    intro k
    obtain ⟨ky, fs⟩ := e
    unfold loadEntries firstFailure
    rw [List.findSome?_cons]
    cases hlk : fs.lookup "hex" with
    | none => simp [entryErr, hlk]
    | some hx =>
      cases hhex : hexToRgb hx with
      | none => simp [entryErr, hlk, hhex]
      | some rgb =>
        simp only [entryErr, hlk, hhex]
        cases hrest : loadEntries rest with
        | ok pal =>
          simp only []
          constructor
          · intro h; cases h
          · intro h
            have := (ih k).mpr h
            rw [hrest] at this
            cases this
        | error e2 =>
          simp only []
          constructor
          · intro h
            have hk : e2 = k := by
              cases h; rfl
            exact (ih k).mp (hk ▸ hrest)
          · intro h
            have := (ih k).mpr h
            rw [hrest] at this
            cases this
            rfl

theorem loadEntries_ok_iff :
    ∀ es : List (String × JsonEntry),
      (∃ pal, loadEntries es = .ok pal) ↔ firstFailure es = none := by
  intro es
  induction es with
  | nil => simp [loadEntries, firstFailure]
  | cons e rest ih =>
    obtain ⟨ky, fs⟩ := e
    unfold loadEntries firstFailure
    rw [List.findSome?_cons]
    cases hlk : fs.lookup "hex" with
    | none => simp [entryErr, hlk]
    | some hx =>
      cases hhex : hexToRgb hx with
      | none => simp [entryErr, hlk, hhex]
      | some rgb =>
        simp only [entryErr, hlk, hhex]
        cases hrest : loadEntries rest with
        | ok pal =>
          simp only []
          constructor
          · intro _
            exact ih.mp ⟨pal, hrest⟩
          · intro _
            exact ⟨(ky, rgb) :: pal, rfl⟩
        | error e2 =>
          simp only []
          constructor
          · rintro ⟨pal', hpal'⟩
            cases hpal'
          · intro h
            rcases ih.mpr h with ⟨pal', hpal'⟩
            rw [hrest] at hpal'
            cases hpal'

/-- C6 (amended): `_load_palette` returns its error result (`None`)
exactly when the file is missing, the JSON is invalid, or the first
failing entry lacks the `hex` field; an entry whose hex value is
unparseable instead raises an uncaught `ValueError`; and in no failure
case is any partial or fallback palette returned. -/
theorem loadPalette_failure_modes (src : PaletteSource) :
    (loadPalette src = .errorNone ↔
      src = .missing ∨ src = .invalidJson ∨
      ∃ es, src = .parsed es ∧ firstFailure es = some .keyError) ∧
    (loadPalette src = .uncaughtValueError ↔
      ∃ es, src = .parsed es ∧ firstFailure es = some .valueError) ∧
    (∀ pal, loadPalette src = .ok pal → ∃ es, src = .parsed es ∧ firstFailure es = none) := by
  cases src with
  | missing => simp [loadPalette]
  | invalidJson => simp [loadPalette]
  | parsed es =>
    refine ⟨?_, ?_, ?_⟩
    · simp only [loadPalette]
      cases hle : loadEntries es with
      | ok pal =>
        simp only []
        constructor
        · intro h; cases h
        · rintro (h | h | ⟨es', hes', hff⟩)
          · cases h
          · cases h
          · cases hes'
            have := (loadEntries_error_iff es .keyError).mpr hff
            rw [hle] at this
            cases this
      | error e2 =>
        cases e2 with
        | keyError =>
          simp only []
          constructor
          · intro _
            exact Or.inr (Or.inr ⟨es, rfl, (loadEntries_error_iff es .keyError).mp hle⟩)
          · intro _
            trivial
        | valueError =>
          simp only []
          constructor
          · intro h; cases h
          · rintro (h | h | ⟨es', hes', hff⟩)
            · cases h
            · cases h
            · cases hes'
              have := (loadEntries_error_iff es .keyError).mpr hff
              rw [hle] at this
              cases this
    · simp only [loadPalette]
      cases hle : loadEntries es with
      | ok pal =>
        simp only []
        constructor
        · intro h; cases h
        · rintro ⟨es', hes', hff⟩
          cases hes'
          have := (loadEntries_error_iff es .valueError).mpr hff
          rw [hle] at this
          cases this
      | error e2 =>
        cases e2 with
        | keyError =>
          simp only []
          constructor
          · intro h; cases h
          · rintro ⟨es', hes', hff⟩
            cases hes'
            have := (loadEntries_error_iff es .valueError).mpr hff
            rw [hle] at this
            cases this
        | valueError =>
          simp only []
          exact ⟨fun _ => ⟨es, rfl, (loadEntries_error_iff es .valueError).mp hle⟩,
            fun _ => trivial⟩
    · intro pal h
      simp only [loadPalette] at h
      cases hle : loadEntries es with
      | ok pal' =>
        exact ⟨es, rfl, (loadEntries_ok_iff es).mp ⟨pal', hle⟩⟩
      | error e2 =>
        rw [hle] at h
        cases e2 <;> cases h

/-- Refutation of C6 as stated: an entry with unparseable hex does not
make loading return the error result; it raises an uncaught `ValueError`. -/
theorem loadPalette_badhex_counterexample :
    hexToRgb "zz" = none ∧
    loadPalette (.parsed [("00", [("hex", "zz")])]) = .uncaughtValueError ∧
    LoadResult.uncaughtValueError ≠ LoadResult.errorNone ∧
    (∀ pal, LoadResult.uncaughtValueError ≠ LoadResult.ok pal) := by
  refine ⟨by decide, by decide, by decide, ?_⟩
  intro pal h
  cases h

/-- Concrete instance of C6 (amended): a missing file yields the error
result. -/
theorem loadPalette_failure_modes_witness :
    loadPalette PaletteSource.missing = LoadResult.errorNone :=
  (loadPalette_failure_modes PaletteSource.missing).1.mpr (Or.inl rfl)

/-! ### Palette key ordering for the quantizer (`_prepare_dithering_palette`,
lines 80-97) -/

/-- Python `int(key)` on a decimal-digit key string. -/
def keyInt (s : String) : ℕ :=
  s.toList.foldl (fun a c => 10 * a + (c.toNat - '0'.toNat)) 0

/-- The comparison used by `sorted(self.palette_data.keys(), key=int)`. -/
def keyLe (a b : String) : Bool := decide (keyInt a ≤ keyInt b)

/-- `self.sorted_palette_keys` (line 83): the declared keys sorted
numerically (Python's `sorted` is stable; stable insertion sort models
it). The i-th element of this list is the key encoded by palette index i
in the flat palette handed to Pillow's quantizer. -/
def sortedPaletteKeys (pal : Palette) : List String :=
  insertionSortBy keyLe (pal.map Prod.fst)

theorem insertBy_perm {α : Type} (le : α → α → Bool) (v : α) :
    ∀ l : List α, (insertBy le v l).Perm (v :: l) := by
  intro l
  induction l with
  | nil => exact List.Perm.refl _
  | cons a as ih =>
    by_cases hle : le v a
    · rw [insertBy, if_pos hle]
    · rw [insertBy, if_neg (by simp [hle])]
      exact List.Perm.trans (List.Perm.cons a ih) (List.Perm.swap v a as)

theorem insertionSortBy_perm {α : Type} (le : α → α → Bool) :
    ∀ l : List α, (insertionSortBy le l).Perm l := by
  intro l
  induction l with
  | nil => exact List.Perm.refl _
  | cons a as ih =>
    exact List.Perm.trans (insertBy_perm le a _) (List.Perm.cons a ih)

theorem pairwise_insertBy (v : String) :
    ∀ l : List String, l.Pairwise (fun a b => keyInt a ≤ keyInt b) →
      (insertBy keyLe v l).Pairwise (fun a b => keyInt a ≤ keyInt b) := by
  intro l
  induction l with
  | nil => intro _; simp [insertBy]
  | cons a as ih =>
    intro hl
    rcases List.pairwise_cons.mp hl with ⟨ha, has⟩
    by_cases hle : keyLe v a
    · rw [insertBy, if_pos hle]
      refine List.pairwise_cons.mpr ⟨?_, hl⟩
      intro x hx
      have hva : keyInt v ≤ keyInt a := of_decide_eq_true hle
      rcases List.mem_cons.mp hx with hx | hx
      · exact hx ▸ hva
      · exact le_trans hva (ha x hx)
    · rw [insertBy, if_neg (by simp [hle])]
      refine List.pairwise_cons.mpr ⟨?_, ih has⟩
      intro x hx
      have hav : keyInt a ≤ keyInt v := by
        have : ¬ keyInt v ≤ keyInt a := by
          intro hc
          exact hle (decide_eq_true hc)
        omega
      rcases (mem_insertBy keyLe v x as).mp hx with hx | hx
      · exact hx ▸ hav
      · exact ha x hx

theorem pairwise_insertionSortBy :
    ∀ l : List String,
      (insertionSortBy keyLe l).Pairwise (fun a b => keyInt a ≤ keyInt b) := by
  intro l
  induction l with
  | nil => simp [insertionSortBy]
  | cons a as ih => exact pairwise_insertBy a _ ih

/-- C7 (amended): the index-based encoding used by the quantizer maps
palette index i to the i-th key in ascending numeric order of the keys
(a stable numeric sort of the declared keys), not to the i-th key in
declared order. -/
theorem sortedPaletteKeys_numeric (pal : Palette) :
    (sortedPaletteKeys pal).Perm (pal.map Prod.fst) ∧
    (sortedPaletteKeys pal).Pairwise (fun a b => keyInt a ≤ keyInt b) :=
  ⟨insertionSortBy_perm keyLe _, pairwise_insertionSortBy _⟩

/-- Refutation of C7 as stated: for a palette declaring `"02"` before
`"01"`, palette index 0 encodes `"01"` (numerically smallest), not the
first declared key `"02"`. -/
theorem sortedPaletteKeys_counterexample :
    (sortedPaletteKeys [("02", (1, 1, 1)), ("01", (2, 2, 2))]).getD 0 "" = "01" ∧
    (([("02", ((1, 1, 1) : RGB)), ("01", (2, 2, 2))] : Palette).map Prod.fst).getD 0 "" = "02" ∧
    ("01" : String) ≠ "02" := by
  refine ⟨by decide, by decide, by decide⟩

/-! ### Geometric normalisation (C9) -/

theorem pyRound_intCast (n : ℤ) : pyRound (n : ℚ) = n := by
  unfold pyRound
  rw [Int.floor_intCast]
  have h0 : (n : ℚ) - n = 0 := by ring
  rw [h0]
  norm_num

theorem pyRound_half (m : ℤ) :
    pyRound ((m : ℚ) + 1/2) = if m % 2 = 0 then m else m + 1 := by
  have hfloor : ⌊(m : ℚ) + 1/2⌋ = m := by
    rw [add_comm, Int.floor_add_int]
    norm_num [Int.floor_eq_iff]
  have hr : (m : ℚ) + 1/2 - m = 1/2 := by ring
  unfold pyRound
  rw [hfloor, hr]
  norm_num

/-- The box arithmetic of the centre crop on one axis: rounding the two
half-coordinates loses at most one pixel of extent, and loses none at all
when the axis length and the short side have equal parity or the short
side is even. -/
theorem pyRound_pair (a b : ℕ) (hb : b ≤ a) :
    (b : ℤ) - 1 ≤ pyRound (((a : ℚ) + b) / 2) - pyRound (((a : ℚ) - b) / 2) ∧
    pyRound (((a : ℚ) + b) / 2) - pyRound (((a : ℚ) - b) / 2) ≤ (b : ℤ) + 1 ∧
    ((a % 2 = b % 2 ∨ b % 2 = 0) →
      pyRound (((a : ℚ) + b) / 2) - pyRound (((a : ℚ) - b) / 2) = (b : ℤ)) := by
  rcases Nat.even_or_odd (a - b) with he | ho
  · obtain ⟨m, hm⟩ := he
    have ha : a = b + 2 * m := by omega
    subst ha
    have h2 : (((b + 2 * m : ℕ) : ℚ) + (b : ℕ)) / 2 = (((b : ℤ) + m : ℤ) : ℚ) := by
      push_cast
      ring
    have h3 : (((b + 2 * m : ℕ) : ℚ) - (b : ℕ)) / 2 = ((m : ℤ) : ℚ) := by
      push_cast
      ring
    rw [h2, h3, pyRound_intCast, pyRound_intCast]
    omega
  · obtain ⟨m, hm⟩ := ho
    have ha : a = b + 2 * m + 1 := by omega
    subst ha
    have h2 : (((b + 2 * m + 1 : ℕ) : ℚ) + (b : ℕ)) / 2 = (((b : ℤ) + m : ℤ) : ℚ) + 1/2 := by
      push_cast
      ring
    have h3 : (((b + 2 * m + 1 : ℕ) : ℚ) - (b : ℕ)) / 2 = ((m : ℤ) : ℚ) + 1/2 := by
      push_cast
      ring
    rw [h2, h3, pyRound_half, pyRound_half]
    split_ifs <;> omega

/-- C9 (amended): the pipeline's output raster is always exactly 32×32
regardless of the input aspect ratio; when width ≠ height the crop step
uses the float box `((w-s)/2, (h-s)/2, (w+s)/2, (h+s)/2)` with `s` the
shorter side, each coordinate rounded half-to-even by the crop, so the
cropped region has extent exactly `s` on an axis whose length has the
parity of `s` (or when `s` is even), and extent within one pixel of `s` in
every case — an exact square is not guaranteed when the longer side is
even and `s` odd. -/
theorem normalize_dims (ops : PilOps) (pal : Palette) (src : Image) :
    (pipeline ops pal src).w = 32 ∧ (pipeline ops pal src).h = 32 ∧
    (src.w ≠ src.h →
      ((src.w % 2 = min src.w src.h % 2 ∨ min src.w src.h % 2 = 0) →
        (cropCenter src).w = min src.w src.h) ∧
      ((src.h % 2 = min src.w src.h % 2 ∨ min src.w src.h % 2 = 0) →
        (cropCenter src).h = min src.w src.h) ∧
      min src.w src.h ≤ (cropCenter src).w + 1 ∧
      (cropCenter src).w ≤ min src.w src.h + 1 ∧
      min src.w src.h ≤ (cropCenter src).h + 1 ∧
      (cropCenter src).h ≤ min src.w src.h + 1) := by
  refine ⟨rfl, rfl, ?_⟩
  intro _
  have hw := pyRound_pair src.w (min src.w src.h) (Nat.min_le_left _ _)
  have hh := pyRound_pair src.h (min src.w src.h) (Nat.min_le_right _ _)
  have hcw : (cropCenter src).w =
      (pyRound (((src.w : ℚ) + (min src.w src.h : ℕ)) / 2) -
        pyRound (((src.w : ℚ) - (min src.w src.h : ℕ)) / 2)).toNat := by
    simp [cropCenter, cropBox]
  have hch : (cropCenter src).h =
      (pyRound (((src.h : ℚ) + (min src.w src.h : ℕ)) / 2) -
        pyRound (((src.h : ℚ) - (min src.w src.h : ℕ)) / 2)).toNat := by
    simp [cropCenter, cropBox]
  rw [hcw, hch]
  rcases hw with ⟨hw1, hw2, hw3⟩
  rcases hh with ⟨hh1, hh2, hh3⟩
  refine ⟨?_, ?_, ?_, ?_, ?_, ?_⟩
  · intro hp
    have := hw3 hp
    omega
  · intro hp
    have := hh3 hp
    omega
  · omega
  · omega
  · omega
  · omega

/-- Refutation of C9 as stated: a 4×3 source is "cropped" to the whole
4×3 raster (the rounded box is `(0, 0, 4, 3)`), not to a 3×3 square on
the shorter side. -/
theorem cropCenter_counterexample :
    (cropCenter ⟨4, 3, fun _ _ => ⟨0, 0, 0, 0⟩⟩).w = 4 ∧
    (cropCenter ⟨4, 3, fun _ _ => ⟨0, 0, 0, 0⟩⟩).h = 3 ∧
    min 4 3 = 3 ∧ (4 : ℕ) ≠ 3 := by
  have hbox : cropBox 4 3 = (0, 0, 4, 3) := by
    unfold cropBox
    have b1 : (((4 : ℕ) : ℚ) - ((min 4 3 : ℕ) : ℚ)) / 2 = ((0 : ℤ) : ℚ) + 1/2 := by
      norm_num
    have b2 : (((3 : ℕ) : ℚ) - ((min 4 3 : ℕ) : ℚ)) / 2 = ((0 : ℤ) : ℚ) := by
      norm_num
    have b3 : (((4 : ℕ) : ℚ) + ((min 4 3 : ℕ) : ℚ)) / 2 = ((3 : ℤ) : ℚ) + 1/2 := by
      norm_num
    have b4 : (((3 : ℕ) : ℚ) + ((min 4 3 : ℕ) : ℚ)) / 2 = ((3 : ℤ) : ℚ) := by
      norm_num
    rw [b1, b2, b3, b4, pyRound_half, pyRound_half, pyRound_intCast, pyRound_intCast]
    norm_num
  refine ⟨?_, ?_, by decide, by decide⟩
  · show ((cropBox 4 3).2.2.1 - (cropBox 4 3).1).toNat = 4
    rw [hbox]
    rfl
  · show ((cropBox 4 3).2.2.2 - (cropBox 4 3).2.1).toNat = 3
    rw [hbox]
    rfl

/-- Concrete instance of C9 (amended), at a 4×3 transparent source and
trivial resampling operations. -/
theorem normalize_dims_witness :
    (pipeline ⟨fun im _ _ => im.pix, id, id, id⟩ [("00", (0, 0, 0))]
      ⟨4, 3, fun _ _ => ⟨0, 0, 0, 0⟩⟩).w = 32 ∧
    (pipeline ⟨fun im _ _ => im.pix, id, id, id⟩ [("00", (0, 0, 0))]
      ⟨4, 3, fun _ _ => ⟨0, 0, 0, 0⟩⟩).h = 32 ∧
    (((4 % 2 = min 4 3 % 2 ∨ min 4 3 % 2 = 0) →
        (cropCenter ⟨4, 3, fun _ _ => ⟨0, 0, 0, 0⟩⟩).w = min 4 3) ∧
      ((3 % 2 = min 4 3 % 2 ∨ min 4 3 % 2 = 0) →
        (cropCenter ⟨4, 3, fun _ _ => ⟨0, 0, 0, 0⟩⟩).h = min 4 3) ∧
      min 4 3 ≤ (cropCenter ⟨4, 3, fun _ _ => ⟨0, 0, 0, 0⟩⟩).w + 1 ∧
      (cropCenter ⟨4, 3, fun _ _ => ⟨0, 0, 0, 0⟩⟩).w ≤ min 4 3 + 1 ∧
      min 4 3 ≤ (cropCenter ⟨4, 3, fun _ _ => ⟨0, 0, 0, 0⟩⟩).h + 1 ∧
      (cropCenter ⟨4, 3, fun _ _ => ⟨0, 0, 0, 0⟩⟩).h ≤ min 4 3 + 1) :=
  ⟨(normalize_dims ⟨fun im _ _ => im.pix, id, id, id⟩ [("00", (0, 0, 0))]
      ⟨4, 3, fun _ _ => ⟨0, 0, 0, 0⟩⟩).1,
    (normalize_dims ⟨fun im _ _ => im.pix, id, id, id⟩ [("00", (0, 0, 0))]
      ⟨4, 3, fun _ _ => ⟨0, 0, 0, 0⟩⟩).2.1,
    (normalize_dims ⟨fun im _ _ => im.pix, id, id, id⟩ [("00", (0, 0, 0))]
      ⟨4, 3, fun _ _ => ⟨0, 0, 0, 0⟩⟩).2.2 (by decide)⟩

/-! ### The perceptual (CIE L*a*b*) metric of the matcher (C8)

The repository's perceptual-metric pipeline variant is not among the files
under `src/` (the file there carries only the RGB-Euclidean matcher, with a
comment contrasting it with LAB), so the conversion and the metric are
modelled from the spec's §4.2 formulas. -/

/-- Modelled from the spec: inverse sRGB gamma for a channel already
normalised to `[0,1]`: `c/12.92` below the linear threshold `0.04045`,
else `((c+0.055)/1.055)^2.4`. -/
noncomputable def srgbInv (c : ℝ) : ℝ :=
  if c ≤ 0.04045 then c / 12.92 else ((c + 0.055) / 1.055) ^ (2.4 : ℝ)

/-- Modelled from the spec: the CIE `f` transform: cube root above the
threshold `0.008856`, else the linear segment `7.787 t + 16/116`. -/
noncomputable def labF (t : ℝ) : ℝ :=
  if t > 0.008856 then t ^ ((1 : ℝ)/3) else 7.787 * t + 16/116

/-- Modelled from the spec: RGB (8-bit channels) → CIE L*a*b*: normalise
to `[0,1]`, inverse gamma, standard D65 RGB→XYZ matrix scaled by 100,
normalise by the D65 white `(95.047, 100, 108.883)`, apply `f`, then
`L = 116 fy - 16`, `a = 500 (fx - fy)`, `b = 200 (fy - fz)`. -/
noncomputable def rgbToLab (r g b : ℕ) : ℝ × ℝ × ℝ :=
  let rl := srgbInv ((r : ℝ) / 255)
  let gl := srgbInv ((g : ℝ) / 255)
  let bl := srgbInv ((b : ℝ) / 255)
  let fx := labF ((0.4124 * rl + 0.3576 * gl + 0.1805 * bl) * 100 / 95.047)
  let fy := labF ((0.2126 * rl + 0.7152 * gl + 0.0722 * bl) * 100 / 100)
  let fz := labF ((0.0193 * rl + 0.1192 * gl + 0.9505 * bl) * 100 / 108.883)
  (116 * fy - 16, 500 * (fx - fy), 200 * (fy - fz))

/-- Squared Euclidean distance in L*a*b* space. -/
noncomputable def labDistSq (c1 c2 : ℝ × ℝ × ℝ) : ℝ :=
  (c1.1 - c2.1) ^ 2 + (c1.2.1 - c2.2.1) ^ 2 + (c1.2.2 - c2.2.2) ^ 2

/-- The two metrics of the matcher (§4.2), selectable at configuration
time. -/
inductive ColorMetric where
  | rgbEuclid
  | labEuclid

/-- Modelled from the spec: the matcher with a selectable metric.  The
RGB branch is exactly the source's `_find_closest_color`; the
perceptual branch runs the same strict-improvement scan on squared
L*a*b* distance. -/
noncomputable def closestWithMetric (m : ColorMetric) (rgb : RGB) (pal : Palette) : String :=
  match m with
  | .rgbEuclid => findClosestColor rgb pal
  | .labEuclid =>
    match pal with
    | [] => "00"
    | e :: rest =>
      (scanBest
        (fun en => labDistSq (rgbToLab rgb.1 rgb.2.1 rgb.2.2)
          (rgbToLab en.2.1 en.2.2.1 en.2.2.2))
        e.1
        (labDistSq (rgbToLab rgb.1 rgb.2.1 rgb.2.2)
          (rgbToLab e.2.1 e.2.2.1 e.2.2.2))
        rest).1

/-- Cube-root bounds near 1: for `x ≥ 1`,
`1 ≤ x^(1/3) ≤ 1 + (x-1)/3`. -/
theorem rpow_third_bounds (x : ℝ) (hx : 1 ≤ x) :
    1 ≤ x ^ ((1 : ℝ)/3) ∧ x ^ ((1 : ℝ)/3) ≤ 1 + (x - 1)/3 := by
  have h0 : (0 : ℝ) ≤ x := le_trans zero_le_one hx
  constructor
  · calc (1 : ℝ) = (1 : ℝ) ^ ((1 : ℝ)/3) := (Real.one_rpow _).symm
      _ ≤ x ^ ((1 : ℝ)/3) := Real.rpow_le_rpow zero_le_one hx (by norm_num)
  · have hc1 : (1 : ℝ) ≤ 1 + (x - 1)/3 := by linarith
    have hc0 : (0 : ℝ) ≤ 1 + (x - 1)/3 := le_trans zero_le_one hc1
    have hxc : x ≤ (1 + (x - 1)/3) ^ (3 : ℕ) := by
      nlinarith [sq_nonneg (x - 1),
        mul_nonneg (mul_nonneg (sub_nonneg.mpr hx) (sub_nonneg.mpr hx)) (sub_nonneg.mpr hx)]
    calc x ^ ((1 : ℝ)/3) ≤ ((1 + (x - 1)/3) ^ (3 : ℕ)) ^ ((1 : ℝ)/3) :=
          Real.rpow_le_rpow h0 hxc (by norm_num)
      _ = 1 + (x - 1)/3 := by
          rw [← Real.rpow_natCast (1 + (x - 1)/3) 3, ← Real.rpow_mul hc0]
          norm_num

/-- C8: the matcher supports a second, configuration-selectable
perceptual Euclidean metric in CIE L*a*b* space (its RGB branch coincides
with the source's `_find_closest_color`), and the RGB→Lab conversion
sends pure black to `(0, 0, 0)` exactly and pure white to `L = 100` with
`|a|, |b|` below the tolerance `1/10`. -/
theorem rgbToLab_anchors :
    rgbToLab 0 0 0 = (0, 0, 0) ∧
    (rgbToLab 255 255 255).1 = 100 ∧
    |(rgbToLab 255 255 255).2.1| < 1/10 ∧
    |(rgbToLab 255 255 255).2.2| < 1/10 ∧
    ∀ (rgb : RGB) (pal : Palette),
      closestWithMetric ColorMetric.rgbEuclid rgb pal = findClosestColor rgb pal := by
  have hsrgb0 : srgbInv 0 = 0 := by
    unfold srgbInv
    rw [if_pos (by norm_num)]
    norm_num
  have hsrgb1 : srgbInv 1 = 1 := by
    unfold srgbInv
    rw [if_neg (by norm_num)]
    have harg : ((1 : ℝ) + 0.055) / 1.055 = 1 := by norm_num
    rw [harg, Real.one_rpow]
  have hlabF0 : labF 0 = 16/116 := by
    unfold labF
    rw [if_neg (by norm_num)]
    norm_num
  have hlabF1 : labF 1 = 1 := by
    unfold labF
    rw [if_pos (by norm_num), Real.one_rpow]
  have hblack : rgbToLab 0 0 0 = (0, 0, 0) := by
    simp only [rgbToLab]
    have hc : (((0 : ℕ) : ℝ)) / 255 = 0 := by norm_num
    rw [hc, hsrgb0]
    have hx : ((0.4124 * 0 + 0.3576 * 0 + 0.1805 * 0) * 100 / 95.047 : ℝ) = 0 := by norm_num
    have hy : ((0.2126 * 0 + 0.7152 * 0 + 0.0722 * 0) * 100 / 100 : ℝ) = 0 := by norm_num
    have hz : ((0.0193 * 0 + 0.1192 * 0 + 0.9505 * 0) * 100 / 108.883 : ℝ) = 0 := by norm_num
    rw [hx, hy, hz, hlabF0]
    norm_num
  have hlabFx : labF (95050/95047 : ℝ) = (95050/95047 : ℝ) ^ ((1 : ℝ)/3) := by
    unfold labF
    rw [if_pos (by norm_num)]
  have hlabFz : labF (108900/108883 : ℝ) = (108900/108883 : ℝ) ^ ((1 : ℝ)/3) := by
    unfold labF
    rw [if_pos (by norm_num)]
  have hwhite : rgbToLab 255 255 255 =
      (100, 500 * ((95050/95047 : ℝ) ^ ((1 : ℝ)/3) - 1),
        200 * (1 - (108900/108883 : ℝ) ^ ((1 : ℝ)/3))) := by
    simp only [rgbToLab]
    have hc : (((255 : ℕ) : ℝ)) / 255 = 1 := by norm_num
    rw [hc, hsrgb1]
    have hx : ((0.4124 * 1 + 0.3576 * 1 + 0.1805 * 1) * 100 / 95.047 : ℝ) = 95050/95047 := by
      norm_num
    have hy : ((0.2126 * 1 + 0.7152 * 1 + 0.0722 * 1) * 100 / 100 : ℝ) = 1 := by norm_num
    have hz : ((0.0193 * 1 + 0.1192 * 1 + 0.9505 * 1) * 100 / 108.883 : ℝ) = 108900/108883 := by
      norm_num
    rw [hx, hy, hz, hlabF1, hlabFx, hlabFz]
    norm_num
  have hbx := rpow_third_bounds (95050/95047 : ℝ) (by norm_num)
  have hbz := rpow_third_bounds (108900/108883 : ℝ) (by norm_num)
  refine ⟨hblack, by rw [hwhite], ?_, ?_, ?_⟩
  · rw [hwhite]
    rw [abs_lt]
    constructor
    · have := hbx.1
      linarith
    · have := hbx.2
      linarith
  · rw [hwhite]
    rw [abs_lt]
    constructor
    · have := hbz.2
      linarith
    · have := hbz.1
      linarith
  · intro rgb pal
    rfl

end PixelCanvas
